import Mathlib

/-!
Verification of the concurrency-primitive library extracted from the
CPP_Multithreading repository.

The development shallowly embeds the relevant C++ code:

* `SafeStack` (src/unnamed/part_000): the mutex-protected stack.  Every
  method body runs entirely under one `std::lock_guard` acquisition, so a
  method call is one atomic transformation of the protected state; the
  embedding models the protected `std::vector<int> data` as a `List Int`
  in vector order (index 0 first, `back()` = last element) and each method
  as a function on that state.
* The RAII lock-guard pattern of src/demo_004.cpp (`dispMessage1`,
  `dispMessage2`, `Logger::log`): a small statement language for the
  critical-section bodies plus an interpreter, so that the release-on-
  every-exit-path behaviour of `std::lock_guard` versus manual
  `lock()`/`unlock()` is derivable, including when the body throws.
* The `std::adopt_lock` misuse in src/demo_006.cpp (`Logger4::log2`).
* Interleaved transition systems for the concurrency claims: the
  two-thread `SafeCounter` increment scenario, the deadlock-free
  two-lock acquisition protocol, and the reader/writer lock.
-/

namespace SafeStack

/-- Embedding of `SafeStack::push` (src/unnamed/part_000 lines 93-96):
`data.push_back(value)` appends at the back of the vector. -/
def push (data : List Int) (value : Int) : List Int :=
  data ++ [value]

/-- Embedding of `SafeStack::tryPop` (src/unnamed/part_000 lines 101-109).
The whole body runs under one `lock_guard`; `result` is the caller's
reference parameter, returned unchanged when the stack is empty.
Returns (return value, new `data`, new `result`). -/
def tryPop (data : List Int) (result : Int) : Bool × List Int × Int :=
  if h : data = [] then
    (false, data, result)
  else
    (true, data.dropLast, data.getLast h)

/-- Embedding of `SafeStack::pop` (src/unnamed/part_000 lines 113-121):
throws `std::runtime_error("Stack is empty")` on an empty stack, else
returns `data.back()` and pops it.  Returns (outcome, new `data`). -/
def pop (data : List Int) : Except String Int × List Int :=
  if h : data = [] then
    (Except.error "Stack is empty", data)
  else
    (Except.ok (data.getLast h), data.dropLast)

/-- Embedding of `SafeStack::size` (src/unnamed/part_000 lines 124-127). -/
def size (data : List Int) : Nat :=
  data.length

/-- Embedding of `SafeStack::isEmpty` (src/unnamed/part_000 lines 130-133). -/
def isEmpty (data : List Int) : Bool :=
  data.isEmpty

/-- Embedding of `SafeStack::getAllData` (src/unnamed/part_000 lines
137-141): `return data;` returns the vector by value, i.e. a copy of the
current contents. -/
def getAllData (data : List Int) : List Int :=
  data

end SafeStack

/-- C4: `SafeStack::tryPop` is a single check-and-act operation on the
protected state: on an empty stack it returns `false` and leaves both the
stack and the caller's `result` variable unchanged; on a non-empty stack
it writes the most recently pushed element (the vector's `back()`) into
`result`, removes that element, and returns `true`.  The whole operation
is one function of the guarded state, performed under one lock
acquisition. -/
theorem SafeStack.tryPop_atomic_check_and_act (data : List Int) (result : Int) :
    (data = [] → SafeStack.tryPop data result = (false, data, result)) ∧
    (∀ h : data ≠ [],
      SafeStack.tryPop data result = (true, data.dropLast, data.getLast h)) := by
  constructor
  · intro h
    simp [SafeStack.tryPop, h]
  · intro h
    simp [SafeStack.tryPop, h]

/-- C9: `SafeStack::pop` throws `std::runtime_error("Stack is empty")` if
and only if the stack is empty; on a non-empty stack it returns the most
recently pushed element (`back()`), removes it, and the size decreases by
exactly one; when it throws, the stack is left unchanged. -/
theorem SafeStack.pop_spec (data : List Int) :
    ((SafeStack.pop data).1 = Except.error "Stack is empty" ↔ data = []) ∧
    (data = [] → (SafeStack.pop data).2 = data) ∧
    (∀ h : data ≠ [],
      (SafeStack.pop data).1 = Except.ok (data.getLast h) ∧
      (SafeStack.pop data).2 = data.dropLast ∧
      SafeStack.size (SafeStack.pop data).2 + 1 = SafeStack.size data) := by
  refine ⟨?_, ?_, ?_⟩
  · constructor
    · intro h
      by_contra hne
      simp [SafeStack.pop, hne] at h
    · intro h
      simp [SafeStack.pop, h]
  · intro h
    simp [SafeStack.pop, h]
  · intro h
    refine ⟨by simp [SafeStack.pop, h], by simp [SafeStack.pop, h], ?_⟩
    simp only [SafeStack.pop, h, dite_false, SafeStack.size]
    have hpos : 0 < data.length := List.length_pos.mpr h
    simp [List.length_dropLast]
    omega

/-- C10: push/tryPop round-trip (LIFO discipline): for every stack state
`s`, caller variable `r` and value `x`, `push x` followed by `tryPop`
succeeds, stores exactly `x` in the caller's variable, and restores the
stack to `s`. -/
theorem SafeStack.push_then_tryPop (s : List Int) (x r : Int) :
    SafeStack.tryPop (SafeStack.push s x) r = (true, s, x) := by
  have hne : s ++ [x] ≠ [] := by simp
  simp only [SafeStack.push, SafeStack.tryPop, hne, dite_false]
  refine Prod.ext rfl (Prod.ext ?_ ?_) <;> simp

/-- C6: `SafeStack::getAllData` returns an independent copy of the
protected contents taken under the lock: the returned value equals the
current contents, and a subsequent mutation (`push`, `pop`) changes the
stack's contents to something different while the previously returned
value — being a copy, not an alias — still equals the old contents. -/
theorem SafeStack.getAllData_snapshot (s : List Int) (x : Int) :
    SafeStack.getAllData s = s ∧
    SafeStack.getAllData (SafeStack.push s x) = s ++ [x] ∧
    SafeStack.getAllData (SafeStack.push s x) ≠ SafeStack.getAllData s ∧
    (∀ h : s ≠ [],
      SafeStack.getAllData (SafeStack.pop s).2 ≠ SafeStack.getAllData s ∧
      SafeStack.getAllData s = s) := by
  refine ⟨rfl, rfl, ?_, ?_⟩
  · simp [SafeStack.getAllData, SafeStack.push]
  · intro h
    refine ⟨?_, rfl⟩
    simp only [SafeStack.getAllData, SafeStack.pop, h, dite_false]
    intro hc
    have := congrArg List.length hc
    simp [List.length_dropLast] at this
    rcases List.exists_cons_of_ne_nil h with ⟨a, t, rfl⟩
    simp at this

namespace Demo004

/-- Statement language for the bodies run inside a critical section in
src/demo_004.cpp: console output (`std::cout << s << std::endl`), log-file
output (`f << s << std::endl`), a raised exception, and sequencing.  The
bodies never touch the mutex themselves. -/
inductive Body where
  | print (s : String)
  | fileWrite (s : String)
  | throwErr (e : String)
  | seq (a b : Body)

/-- Effect state threaded through a critical section: console lines
written, log-file lines written, and the pending exception if one was
raised (C++ stack unwinding skips the remaining statements). -/
structure EffState where
  output : List String
  fileLines : List String
  exc : Option String
deriving DecidableEq

/-- C++ evaluation of a body: statements run in order; once an exception
is pending every remaining statement is skipped (unwinding). -/
def execBody : Body → EffState → EffState
  | Body.print s, st =>
      if st.exc.isSome then st else { st with output := st.output ++ [s] }
  | Body.fileWrite s, st =>
      if st.exc.isSome then st else { st with fileLines := st.fileLines ++ [s] }
  | Body.throwErr e, st =>
      if st.exc.isSome then st else { st with exc := some e }
  | Body.seq a b, st => execBody b (execBody a st)

/-- Embedding of the `std::lock_guard` scope pattern of src/demo_004.cpp
(`dispMessage2` lines 27-35, `Logger::log` lines 60-65): the guard's
constructor acquires the mutex (`none` models the call blocking forever
because the non-reentrant mutex is already held), the body runs, and the
guard's destructor releases the mutex on scope exit — both on normal
completion and during stack unwinding — after which a pending exception
keeps propagating unchanged in the resulting state. -/
def runLockGuard (body : Body) (locked : Bool) (st : EffState) :
    Option (Bool × EffState) :=
  if locked then none
  else some (false, execBody body st)

/-- Embedding of `dispMessage1` (src/demo_004.cpp lines 16-23): manual
`mtx.lock()` / `mtx.unlock()`; the `unlock()` statement is skipped when
the body throws, so the mutex stays locked on the exceptional path. -/
def runManualLock (body : Body) (locked : Bool) (st : EffState) :
    Option (Bool × EffState) :=
  if locked then none
  else
    let st' := execBody body st
    if st'.exc.isSome then some (true, st') else some (false, st')

/-- Embedding of `dispMessage2` (src/demo_004.cpp lines 27-35): a
`lock_guard` scope whose body prints `s`. -/
def dispMessage2 (s : String) (locked : Bool) (st : EffState) :
    Option (Bool × EffState) :=
  runLockGuard (Body.print s) locked st

/-- Embedding of `Logger::log` (src/demo_004.cpp lines 60-65): a
`lock_guard` scope on the logger's own mutex whose body writes `s` to
the log file. -/
def Loggerlog (s : String) (locked : Bool) (st : EffState) :
    Option (Bool × EffState) :=
  runLockGuard (Body.fileWrite s) locked st

/-- On the exceptional path, the manual-lock variant `dispMessage1` leaks
the mutex: the model distinguishes the two patterns. -/
theorem runManualLock_leaks_on_throw (e : String) (st : EffState)
    (h : st.exc = none) :
    ∃ st', runManualLock (Body.throwErr e) false st = some (true, st') := by
  refine ⟨{ st with exc := some e }, ?_⟩
  simp [runManualLock, execBody, h]

end Demo004

/-- C5: every guarded operation that runs a caller-supplied body under a
lock via the `std::lock_guard` pattern (`dispMessage2`, `Logger::log`)
releases the lock on every exit path — after a normal return and after a
raised exception alike the mutex ends up released — and when the body
raises, the call completes with the lock released and the very same
error pending, propagated unchanged to the caller, never swallowed. -/
theorem Demo004.lockGuard_releases_on_every_exit_path
    (b : Demo004.Body) (s : String) (st : Demo004.EffState) :
    (Demo004.runLockGuard b false st = some (false, Demo004.execBody b st)) ∧
    (∀ e, (Demo004.execBody b st).exc = some e →
      ∃ st', Demo004.runLockGuard b false st = some (false, st') ∧
        st'.exc = some e) ∧
    ((Demo004.execBody b st).exc = none →
      ∃ st', Demo004.runLockGuard b false st = some (false, st') ∧
        st'.exc = none) ∧
    (Demo004.dispMessage2 s false st =
      some (false, Demo004.execBody (Demo004.Body.print s) st)) ∧
    (Demo004.Loggerlog s false st =
      some (false, Demo004.execBody (Demo004.Body.fileWrite s) st)) := by
  refine ⟨by simp [Demo004.runLockGuard], ?_, ?_, ?_, ?_⟩
  · intro e he
    exact ⟨Demo004.execBody b st, by simp [Demo004.runLockGuard], he⟩
  · intro he
    exact ⟨Demo004.execBody b st, by simp [Demo004.runLockGuard], he⟩
  · simp [Demo004.dispMessage2, Demo004.runLockGuard]
  · simp [Demo004.Loggerlog, Demo004.runLockGuard]

namespace Demo006

/-- Usage errors of the spec's ExclusiveLock contract. -/
inductive UsageError where
  | releaseNotHeld
deriving DecidableEq

/-- Modelled from the spec: `release()` of the ExclusiveLock contract
(spec sections 4.1 and 7).  The repository's `Logger4::log2` unlocks
`std::mutex`es the calling thread never locked; the standard mutex
implementation is not part of the repository, and the spec's contract
makes releasing a lock not held by the caller a fatal usage error,
signalled immediately and never silently ignored.  `release` maps a held
lock to the unlocked state and an unheld lock to the fatal signal. -/
def release (held : Bool) : Except UsageError Bool :=
  if held then Except.ok false else Except.error UsageError.releaseNotHeld

/-- Embedding of `Logger4::log2` (src/demo_006.cpp lines 184-203) over
the modelled release semantics: `std::lock_guard(m, std::adopt_lock)`
performs no locking at construction, each inner scope's exit calls
`release` on its mutex (`mtx2` first, then `mtx`), and only then does
`std::cout << s` run.  A fatal usage error aborts execution at the
release that signals it.  Inputs are the held-state of `mtx` and `mtx2`
for the calling thread and the console output so far. -/
def Logger4log2 (s : String) (mtx mtx2 : Bool) (output : List String) :
    Except UsageError (Bool × Bool × List String) := do
  let mtx2' ← release mtx2
  let mtx' ← release mtx
  Except.ok (mtx', mtx2', output ++ [s])

end Demo006

/-- C7: releasing an exclusive lock the calling thread does not hold is a
fatal usage error, signalled immediately and never silently ignored:
`Logger4::log2` adopts never-locked mutexes, so its first scope exit
releases the unheld `mtx2`, and the call aborts with the fatal
`releaseNotHeld` signal — in particular it never completes normally and
its message is never printed. -/
theorem Demo006.log2_release_unheld_is_fatal (s : String) (output : List String) :
    Demo006.Logger4log2 s false false output =
      Except.error Demo006.UsageError.releaseNotHeld ∧
    ∀ r, Demo006.Logger4log2 s false false output ≠ Except.ok r := by
  have h0 : Demo006.Logger4log2 s false false output =
      Except.error Demo006.UsageError.releaseNotHeld := rfl
  refine ⟨h0, ?_⟩
  intro r h
  rw [h0] at h
  exact Except.noConfusion h

namespace SafeCounter

/-- Position of one thread inside `SafeCounter::increment`
(src/unnamed/part_000 lines 198-201), whose body is
`std::lock_guard<std::mutex> lock(mtx); ++count;`:
`ready` = outside the critical section (before the next call),
`locked` = the `lock_guard` constructor has acquired the mutex,
`updated` = `++count` has executed and the destructor's release is
pending. -/
inductive Phase where
  | ready
  | locked
  | updated
deriving DecidableEq

/-- Local state of one incrementing thread of `demo6_safe_counter`
(src/unnamed/part_000 lines 348-368): iterations of the 10,000-step loop
still to run, and the phase inside the current `increment` call. -/
structure TState where
  rem : Nat
  phase : Phase
deriving DecidableEq

/-- Global state: the mutex owner (`none` = unlocked; `some false` /
`some true` = held by thread t1 / t2), the protected `count`, and the two
thread-local states. -/
structure CState where
  owner : Option Bool
  count : Nat
  t0 : TState
  t1 : TState
deriving DecidableEq

/-- Initial state of `demo6_safe_counter` with `M` iterations per thread:
counter zero, mutex unlocked, both threads about to start their loops. -/
def init (M : Nat) : CState :=
  { owner := none, count := 0,
    t0 := { rem := M, phase := Phase.ready },
    t1 := { rem := M, phase := Phase.ready } }

/-- Interleaving semantics of the two threads running
`SafeCounter::increment` in a loop.  Acquiring the mutex (the
`lock_guard` constructor) is enabled only when the mutex is free —
that is the whole contract of `std::mutex` — `++count` requires the
mutex to be held by the stepping thread, and the `lock_guard` destructor
releases it, completing one loop iteration. -/
inductive Step : CState → CState → Prop where
  | acquire0 (s : CState) (ho : s.owner = none) (hp : s.t0.phase = Phase.ready)
      (hr : 0 < s.t0.rem) :
      Step s { s with owner := some false, t0 := { s.t0 with phase := Phase.locked } }
  | incr0 (s : CState) (hp : s.t0.phase = Phase.locked) :
      Step s { s with count := s.count + 1, t0 := { s.t0 with phase := Phase.updated } }
  | release0 (s : CState) (hp : s.t0.phase = Phase.updated) :
      Step s { s with owner := none,
                      t0 := { rem := s.t0.rem - 1, phase := Phase.ready } }
  | acquire1 (s : CState) (ho : s.owner = none) (hp : s.t1.phase = Phase.ready)
      (hr : 0 < s.t1.rem) :
      Step s { s with owner := some true, t1 := { s.t1 with phase := Phase.locked } }
  | incr1 (s : CState) (hp : s.t1.phase = Phase.locked) :
      Step s { s with count := s.count + 1, t1 := { s.t1 with phase := Phase.updated } }
  | release1 (s : CState) (hp : s.t1.phase = Phase.updated) :
      Step s { s with owner := none,
                      t1 := { rem := s.t1.rem - 1, phase := Phase.ready } }

/-- States reachable from the start of `demo6_safe_counter` with `M`
iterations per thread, under every interleaving. -/
def Reachable (M : Nat) (s : CState) : Prop :=
  Relation.ReflTransGen Step (init M) s

/-- Thread is inside the critical section of `increment` (it holds, or is
about to release, the mutex). -/
def inCS (t : TState) : Prop :=
  t.phase ≠ Phase.ready

/-- Inductive invariant of the interleaved system: each thread away from
`ready` owns the mutex and still has an iteration in progress, and the
counter accounts exactly for all completed iterations plus the in-flight
increments already applied. -/
def Inv (M : Nat) (s : CState) : Prop :=
  s.t0.rem ≤ M ∧ s.t1.rem ≤ M ∧
  (s.t0.phase ≠ Phase.ready → s.owner = some false ∧ 0 < s.t0.rem) ∧
  (s.t1.phase ≠ Phase.ready → s.owner = some true ∧ 0 < s.t1.rem) ∧
  s.count = (M - s.t0.rem) + (M - s.t1.rem)
      + (if s.t0.phase = Phase.updated then 1 else 0)
      + (if s.t1.phase = Phase.updated then 1 else 0)

theorem counterStepInv {M : Nat} {s s' : CState}
    (hs : Step s s') (hi : Inv M s) : Inv M s' := by
  obtain ⟨h0, h1, h2, h3, h4⟩ := hi
  cases hs with
  | acquire0 ho hp hr =>
      have ht1 : s.t1.phase = Phase.ready := by
        by_contra hc
        rw [(h3 hc).1] at ho
        exact Option.noConfusion ho
      refine ⟨h0, h1, fun _ => ⟨rfl, hr⟩, fun hc => absurd ht1 hc, ?_⟩
      simp [hp, ht1] at h4 ⊢
      omega
  | incr0 hp =>
      have hown := h2 (hp ▸ (fun hc => Phase.noConfusion hc))
      have ht1 : s.t1.phase = Phase.ready := by
        by_contra hc
        have := (h3 hc).1
        rw [hown.1] at this
        exact Bool.noConfusion (Option.some.inj this)
      refine ⟨h0, h1, fun _ => hown, fun hc => absurd ht1 hc, ?_⟩
      simp [hp, ht1] at h4 ⊢
      omega
  | release0 hp =>
      have hown := h2 (hp ▸ (fun hc => Phase.noConfusion hc))
      have ht1 : s.t1.phase = Phase.ready := by
        by_contra hc
        have := (h3 hc).1
        rw [hown.1] at this
        exact Bool.noConfusion (Option.some.inj this)
      refine ⟨?_, h1, fun hc => absurd rfl hc, fun hc => absurd ht1 hc, ?_⟩
      · show s.t0.rem - 1 ≤ M
        omega
      · have hr0 : 0 < s.t0.rem := hown.2
        simp [hp, ht1] at h4 ⊢
        omega
  | acquire1 ho hp hr =>
      have ht0 : s.t0.phase = Phase.ready := by
        by_contra hc
        rw [(h2 hc).1] at ho
        exact Option.noConfusion ho
      refine ⟨h0, h1, fun hc => absurd ht0 hc, fun _ => ⟨rfl, hr⟩, ?_⟩
      simp [hp, ht0] at h4 ⊢
      omega
  | incr1 hp =>
      have hown := h3 (hp ▸ (fun hc => Phase.noConfusion hc))
      have ht0 : s.t0.phase = Phase.ready := by
        by_contra hc
        have := (h2 hc).1
        rw [hown.1] at this
        exact Bool.noConfusion (Option.some.inj this)
      refine ⟨h0, h1, fun hc => absurd ht0 hc, fun _ => hown, ?_⟩
      simp [hp, ht0] at h4 ⊢
      omega
  | release1 hp =>
      have hown := h3 (hp ▸ (fun hc => Phase.noConfusion hc))
      have ht0 : s.t0.phase = Phase.ready := by
        by_contra hc
        have := (h2 hc).1
        rw [hown.1] at this
        exact Bool.noConfusion (Option.some.inj this)
      refine ⟨h0, ?_, fun hc => absurd ht0 hc, fun hc => absurd rfl hc, ?_⟩
      · show s.t1.rem - 1 ≤ M
        omega
      · have hr1 : 0 < s.t1.rem := hown.2
        simp [hp, ht0] at h4 ⊢
        omega


theorem counterReachInv {M : Nat} {s : CState} (h : Reachable M s) : Inv M s := by
  induction h with
  | refl =>
      refine ⟨Nat.le_refl M, Nat.le_refl M, ?_, ?_, ?_⟩ <;>
        simp [init]
  | tail _ hstep ih => exact counterStepInv hstep ih

end SafeCounter

/-- C1: two threads each performing 10,000 increments of the shared
counter through `SafeCounter::increment` (lock acquired before `++count`)
never overlap their critical sections — in no reachable interleaving are
both threads past the lock acquisition at once — and in every reachable
state in which both threads have completed their loops the counter is
exactly 20,000: no update is ever lost. -/
theorem SafeCounter.two_threads_count_exactly_20000 (s : SafeCounter.CState)
    (h : SafeCounter.Reachable 10000 s) :
    ¬ (SafeCounter.inCS s.t0 ∧ SafeCounter.inCS s.t1) ∧
    (s.t0.rem = 0 → s.t1.rem = 0 → s.count = 20000) := by
  obtain ⟨h0, h1, h2, h3, h4⟩ := SafeCounter.counterReachInv h
  constructor
  · rintro ⟨hc0, hc1⟩
    have e0 := (h2 hc0).1
    have e1 := (h3 hc1).1
    rw [e0] at e1
    exact Bool.noConfusion (Option.some.inj e1)
  · intro hr0 hr1
    have hp0 : s.t0.phase = SafeCounter.Phase.ready := by
      by_contra hc
      exact Nat.lt_irrefl 0 (hr0 ▸ (h2 hc).2)
    have hp1 : s.t1.phase = SafeCounter.Phase.ready := by
      by_contra hc
      exact Nat.lt_irrefl 0 (hr1 ▸ (h3 hc).2)
    rw [h4, hr0, hr1, hp0, hp1]
    simp

/-- C1 witness: the initial state of the two-thread 10,000-increment
scenario is reachable, its critical sections do not overlap, and the
completion implication holds there. -/
theorem SafeCounter.two_threads_count_witness :
    ¬ (SafeCounter.inCS (SafeCounter.init 10000).t0 ∧
        SafeCounter.inCS (SafeCounter.init 10000).t1) ∧
    ((SafeCounter.init 10000).t0.rem = 0 → (SafeCounter.init 10000).t1.rem = 0 →
      (SafeCounter.init 10000).count = 20000) :=
  SafeCounter.two_threads_count_exactly_20000 (SafeCounter.init 10000)
    Relation.ReflTransGen.refl


namespace MultiLock

/-- Protocol position of one thread acquiring the two mutexes of
`Logger3` (src/demo_006.cpp): blocking-acquire of the current front lock,
non-blocking try of the other, the critical section (`std::cout << s`
under both locks), and completion after the scope exit released both. -/
inductive MPhase where
  | waitFirst
  | trySecond
  | cs
  | done
deriving DecidableEq

/-- One thread of the two-lock acquisition: its protocol phase and which
lock it currently takes with a blocking acquire (`false` = `mtx`,
`true` = `mtx2`); the try-and-backoff protocol rotates this lock after a
failed try. -/
structure MThread where
  phase : MPhase
  first : Bool
deriving DecidableEq

/-- Global state: the holder of each of `Logger3`'s two mutexes (`none` =
unlocked; `some false` / `some true` = held by thread 0 / thread 1) and
the two thread states. -/
structure MState where
  mtx : Option Bool
  mtx2 : Option Bool
  th0 : MThread
  th1 : MThread
deriving DecidableEq

/-- The holder of lock `l` (`false` = `mtx`, `true` = `mtx2`). -/
def lockOf (s : MState) (l : Bool) : Option Bool :=
  if l then s.mtx2 else s.mtx

/-- State with lock `l` set to holder `v`. -/
def setLockOf (s : MState) (l : Bool) (v : Option Bool) : MState :=
  if l then { s with mtx2 := v } else { s with mtx := v }

theorem lockOf_setLockOf (s : MState) (l : Bool) (v : Option Bool) (l' : Bool) :
    lockOf (setLockOf s l v) l' = if l' = l then v else lockOf s l' := by
  cases l <;> cases l' <;> simp [lockOf, setLockOf]

theorem th0_setLockOf (s : MState) (l : Bool) (v : Option Bool) :
    (setLockOf s l v).th0 = s.th0 := by
  cases l <;> rfl

theorem th1_setLockOf (s : MState) (l : Bool) (v : Option Bool) :
    (setLockOf s l v).th1 = s.th1 := by
  cases l <;> rfl

/-- Modelled from the spec: one atomic action of the deadlock-avoidance
multi-lock acquisition (`std::lock(mtx, mtx2)` inside `Logger3::log` and
`Logger3::log2`, src/demo_006.cpp lines 123-147, is standard-library
code, so the algorithm is taken from the spec's MultiLockAcquirer,
section 4.3, specialized to two locks): a thread blocking-acquires its
current front lock when free; then try-acquires the other lock — on
success it enters the critical section, on failure it releases every
lock acquired in this pass and moves its blocking acquisition onto the
lock that just failed; leaving the critical section releases all held
locks. -/
inductive Step : MState → MState → Prop where
  | acquireFirst0 (s : MState) (hp : s.th0.phase = MPhase.waitFirst)
      (hl : lockOf s s.th0.first = none) :
      Step s { setLockOf s s.th0.first (some false) with
               th0 := { s.th0 with phase := MPhase.trySecond } }
  | trySecondOk0 (s : MState) (hp : s.th0.phase = MPhase.trySecond)
      (hl : lockOf s (!s.th0.first) = none) :
      Step s { setLockOf s (!s.th0.first) (some false) with
               th0 := { s.th0 with phase := MPhase.cs } }
  | trySecondFail0 (s : MState) (j : Bool) (hp : s.th0.phase = MPhase.trySecond)
      (hl : lockOf s (!s.th0.first) = some j) :
      Step s { setLockOf s s.th0.first none with
               th0 := { phase := MPhase.waitFirst, first := !s.th0.first } }
  | exitCS0 (s : MState) (hp : s.th0.phase = MPhase.cs) :
      Step s { s with
               mtx := none, mtx2 := none,
               th0 := { s.th0 with phase := MPhase.done } }
  | acquireFirst1 (s : MState) (hp : s.th1.phase = MPhase.waitFirst)
      (hl : lockOf s s.th1.first = none) :
      Step s { setLockOf s s.th1.first (some true) with
               th1 := { s.th1 with phase := MPhase.trySecond } }
  | trySecondOk1 (s : MState) (hp : s.th1.phase = MPhase.trySecond)
      (hl : lockOf s (!s.th1.first) = none) :
      Step s { setLockOf s (!s.th1.first) (some true) with
               th1 := { s.th1 with phase := MPhase.cs } }
  | trySecondFail1 (s : MState) (j : Bool) (hp : s.th1.phase = MPhase.trySecond)
      (hl : lockOf s (!s.th1.first) = some j) :
      Step s { setLockOf s s.th1.first none with
               th1 := { phase := MPhase.waitFirst, first := !s.th1.first } }
  | exitCS1 (s : MState) (hp : s.th1.phase = MPhase.cs) :
      Step s { s with
               mtx := none, mtx2 := none,
               th1 := { s.th1 with phase := MPhase.done } }

/-- Initial state: both mutexes free, each thread about to run the
protocol with its own caller-chosen front lock (`f0`, `f1`) — in
particular opposite per-call-site orders are covered. -/
def init (f0 f1 : Bool) : MState :=
  { mtx := none, mtx2 := none,
    th0 := { phase := MPhase.waitFirst, first := f0 },
    th1 := { phase := MPhase.waitFirst, first := f1 } }

/-- Reachable states of the two-thread protocol. -/
def Reachable (f0 f1 : Bool) (s : MState) : Prop :=
  Relation.ReflTransGen Step (init f0 f1) s

/-- Both calls have completed. -/
def BothDone (s : MState) : Prop :=
  s.th0.phase = MPhase.done ∧ s.th1.phase = MPhase.done

/-- Holding discipline of one thread: a blocked (or finished) thread
holds no lock; a thread trying its second lock holds exactly its front
lock; a thread in the critical section holds both locks. -/
def ThreadInv (s : MState) (i : Bool) (t : MThread) : Prop :=
  (t.phase = MPhase.waitFirst → ∀ l, lockOf s l ≠ some i) ∧
  (t.phase = MPhase.trySecond →
    lockOf s t.first = some i ∧ lockOf s (!t.first) ≠ some i) ∧
  (t.phase = MPhase.cs → ∀ l, lockOf s l = some i) ∧
  (t.phase = MPhase.done → ∀ l, lockOf s l ≠ some i)

/-- Inductive invariant of the protocol. -/
def Inv (s : MState) : Prop :=
  ThreadInv s false s.th0 ∧ ThreadInv s true s.th1

theorem lockOf_upd_th0 (x : MState) (t : MThread) (l : Bool) :
    lockOf { x with th0 := t } l = lockOf x l := by
  cases l <;> rfl

theorem lockOf_upd_th1 (x : MState) (t : MThread) (l : Bool) :
    lockOf { x with th1 := t } l = lockOf x l := by
  cases l <;> rfl

theorem bool_ne_not (b : Bool) : (!b) ≠ b := by
  cases b <;> simp

theorem bool_eq_of_ne_not {a b : Bool} (h : a ≠ !b) : a = b := by
  cases a <;> cases b <;> simp_all

theorem bool_eq_not_of_ne {a b : Bool} (h : a ≠ b) : a = !b := by
  cases a <;> cases b <;> simp_all

theorem lock_free_of_neither {s : MState} (l : Bool)
    (h0 : lockOf s l ≠ some false) (h1 : lockOf s l ≠ some true) :
    lockOf s l = none := by
  rcases ho : lockOf s l with _ | j
  · rfl
  · cases j
    · exact absurd ho h0
    · exact absurd ho h1

theorem ThreadInv_of_waitFirst {s' : MState} {i : Bool} {t : MThread}
    (hph : t.phase = MPhase.waitFirst)
    (hnone : ∀ l, lockOf s' l ≠ some i) : ThreadInv s' i t := by
  refine ⟨fun _ => hnone, ?_, ?_, ?_⟩ <;>
    · intro h
      rw [hph] at h
      exact MPhase.noConfusion h

theorem ThreadInv_of_trySecond {s' : MState} {i : Bool} {t : MThread} {f : Bool}
    (hph : t.phase = MPhase.trySecond) (hf : t.first = f)
    (ha : lockOf s' f = some i) (hb : lockOf s' (!f) ≠ some i) :
    ThreadInv s' i t := by
  subst hf
  refine ⟨?_, fun _ => ⟨ha, hb⟩, ?_, ?_⟩ <;>
    · intro h
      rw [hph] at h
      exact MPhase.noConfusion h

theorem ThreadInv_of_cs {s' : MState} {i : Bool} {t : MThread}
    (hph : t.phase = MPhase.cs)
    (hall : ∀ l, lockOf s' l = some i) : ThreadInv s' i t := by
  refine ⟨?_, ?_, fun _ => hall, ?_⟩ <;>
    · intro h
      rw [hph] at h
      exact MPhase.noConfusion h

theorem ThreadInv_of_done {s' : MState} {i : Bool} {t : MThread}
    (hph : t.phase = MPhase.done)
    (hnone : ∀ l, lockOf s' l ≠ some i) : ThreadInv s' i t := by
  refine ⟨?_, ?_, ?_, fun _ => hnone⟩ <;>
    · intro h
      rw [hph] at h
      exact MPhase.noConfusion h

/-- Frame rule: a lock-state change that neither creates nor destroys a
holding of thread `i` preserves thread `i`'s holding discipline. -/
theorem ThreadInv_frame {s s' : MState} (i : Bool) {t t' : MThread}
    (hteq : t' = t)
    (hsame : ∀ l, lockOf s' l = lockOf s l ∨
      (lockOf s l ≠ some i ∧ lockOf s' l ≠ some i))
    (ht : ThreadInv s i t) : ThreadInv s' i t' := by
  subst hteq
  obtain ⟨w, tr, c, d⟩ := ht
  refine ⟨?_, ?_, ?_, ?_⟩
  · intro hph l
    rcases hsame l with he | ⟨_, hne⟩
    · rw [he]; exact w hph l
    · exact hne
  · intro hph
    obtain ⟨ha, hb⟩ := tr hph
    constructor
    · rcases hsame t'.first with he | ⟨hne, _⟩
      · rw [he]; exact ha
      · exact absurd ha hne
    · rcases hsame (!t'.first) with he | ⟨_, hne⟩
      · rw [he]; exact hb
      · exact hne
  · intro hph l
    rcases hsame l with he | ⟨hne, _⟩
    · rw [he]; exact c hph l
    · exact absurd (c hph l) hne
  · intro hph l
    rcases hsame l with he | ⟨_, hne⟩
    · rw [he]; exact d hph l
    · exact hne

theorem mlStepInv {s s' : MState} (hs : Step s s') (hi : Inv s) :
    Inv s' := by
  obtain ⟨hi0, hi1⟩ := hi
  obtain ⟨w0, t0, c0, d0⟩ := hi0
  obtain ⟨w1, t1, c1, d1⟩ := hi1
  cases hs with
  | acquireFirst0 hp hl =>
      have hw := w0 hp
      constructor
      · refine ThreadInv_of_trySecond rfl rfl ?_ ?_
        · rw [lockOf_upd_th0, lockOf_setLockOf, if_pos rfl]
        · rw [lockOf_upd_th0, lockOf_setLockOf, if_neg (bool_ne_not _)]
          exact hw _
      · refine ThreadInv_frame true (th1_setLockOf s _ _) ?_ ⟨w1, t1, c1, d1⟩
        intro l
        rw [lockOf_upd_th0, lockOf_setLockOf]
        by_cases hc : l = s.th0.first
        · right
          rw [if_pos hc, hc, hl]
          exact ⟨by simp, by simp⟩
        · left
          rw [if_neg hc]
  | trySecondOk0 hp hl =>
      obtain ⟨ha, hb⟩ := t0 hp
      constructor
      · refine ThreadInv_of_cs rfl ?_
        intro l
        rw [lockOf_upd_th0, lockOf_setLockOf]
        by_cases hc : l = !s.th0.first
        · rw [if_pos hc]
        · rw [if_neg hc, bool_eq_of_ne_not hc]
          exact ha
      · refine ThreadInv_frame true (th1_setLockOf s _ _) ?_ ⟨w1, t1, c1, d1⟩
        intro l
        rw [lockOf_upd_th0, lockOf_setLockOf]
        by_cases hc : l = !s.th0.first
        · right
          rw [if_pos hc, hc, hl]
          exact ⟨by simp, by simp⟩
        · left
          rw [if_neg hc]
  | trySecondFail0 j hp hl =>
      obtain ⟨ha, hb⟩ := t0 hp
      constructor
      · refine ThreadInv_of_waitFirst rfl ?_
        intro l
        rw [lockOf_upd_th0, lockOf_setLockOf]
        by_cases hc : l = s.th0.first
        · rw [if_pos hc]
          simp
        · rw [if_neg hc, bool_eq_not_of_ne hc]
          exact hb
      · refine ThreadInv_frame true (th1_setLockOf s _ _) ?_ ⟨w1, t1, c1, d1⟩
        intro l
        rw [lockOf_upd_th0, lockOf_setLockOf]
        by_cases hc : l = s.th0.first
        · right
          rw [if_pos hc, hc, ha]
          exact ⟨by simp, by simp⟩
        · left
          rw [if_neg hc]
  | exitCS0 hp =>
      have hall := c0 hp
      constructor
      · refine ThreadInv_of_done rfl ?_
        intro l
        cases l <;> simp [lockOf]
      · refine ThreadInv_frame true rfl ?_ ⟨w1, t1, c1, d1⟩
        intro l
        right
        refine ⟨by rw [hall l]; simp, ?_⟩
        cases l <;> simp [lockOf]
  | acquireFirst1 hp hl =>
      have hw := w1 hp
      constructor
      · refine ThreadInv_frame false (th0_setLockOf s _ _) ?_ ⟨w0, t0, c0, d0⟩
        intro l
        rw [lockOf_upd_th1, lockOf_setLockOf]
        by_cases hc : l = s.th1.first
        · right
          rw [if_pos hc, hc, hl]
          exact ⟨by simp, by simp⟩
        · left
          rw [if_neg hc]
      · refine ThreadInv_of_trySecond rfl rfl ?_ ?_
        · rw [lockOf_upd_th1, lockOf_setLockOf, if_pos rfl]
        · rw [lockOf_upd_th1, lockOf_setLockOf, if_neg (bool_ne_not _)]
          exact hw _
  | trySecondOk1 hp hl =>
      obtain ⟨ha, hb⟩ := t1 hp
      constructor
      · refine ThreadInv_frame false (th0_setLockOf s _ _) ?_ ⟨w0, t0, c0, d0⟩
        intro l
        rw [lockOf_upd_th1, lockOf_setLockOf]
        by_cases hc : l = !s.th1.first
        · right
          rw [if_pos hc, hc, hl]
          exact ⟨by simp, by simp⟩
        · left
          rw [if_neg hc]
      · refine ThreadInv_of_cs rfl ?_
        intro l
        rw [lockOf_upd_th1, lockOf_setLockOf]
        by_cases hc : l = !s.th1.first
        · rw [if_pos hc]
        · rw [if_neg hc, bool_eq_of_ne_not hc]
          exact ha
  | trySecondFail1 j hp hl =>
      obtain ⟨ha, hb⟩ := t1 hp
      constructor
      · refine ThreadInv_frame false (th0_setLockOf s _ _) ?_ ⟨w0, t0, c0, d0⟩
        intro l
        rw [lockOf_upd_th1, lockOf_setLockOf]
        by_cases hc : l = s.th1.first
        · right
          rw [if_pos hc, hc, ha]
          exact ⟨by simp, by simp⟩
        · left
          rw [if_neg hc]
      · refine ThreadInv_of_waitFirst rfl ?_
        intro l
        rw [lockOf_upd_th1, lockOf_setLockOf]
        by_cases hc : l = s.th1.first
        · rw [if_pos hc]
          simp
        · rw [if_neg hc, bool_eq_not_of_ne hc]
          exact hb
  | exitCS1 hp =>
      have hall := c1 hp
      constructor
      · refine ThreadInv_frame false rfl ?_ ⟨w0, t0, c0, d0⟩
        intro l
        right
        refine ⟨by rw [hall l]; simp, ?_⟩
        cases l <;> simp [lockOf]
      · refine ThreadInv_of_done rfl ?_
        intro l
        cases l <;> simp [lockOf]

theorem inv_init (f0 f1 : Bool) : Inv (init f0 f1) := by
  constructor <;>
    exact ThreadInv_of_waitFirst rfl (fun l => by cases l <;> simp [lockOf, init])

theorem inv_rtg {s s' : MState} (h : Relation.ReflTransGen Step s s')
    (hInv : Inv s) : Inv s' := by
  induction h with
  | refl => exact hInv
  | tail _ hstep ih => exact mlStepInv hstep ih

theorem mlReachInv {f0 f1 : Bool} {s : MState} (h : Reachable f0 f1 s) :
    Inv s :=
  inv_rtg h (inv_init f0 f1)

theorem progress {s : MState} (hInv : Inv s) (hnd : ¬ BothDone s) :
    ∃ s', Step s s' := by
  obtain ⟨⟨w0, t0, c0, d0⟩, ⟨w1, t1, c1, d1⟩⟩ := hInv
  cases hp0 : s.th0.phase with
  | trySecond =>
      rcases hq : lockOf s (!s.th0.first) with _ | j
      · exact ⟨_, Step.trySecondOk0 s hp0 hq⟩
      · exact ⟨_, Step.trySecondFail0 s j hp0 hq⟩
  | cs => exact ⟨_, Step.exitCS0 s hp0⟩
  | waitFirst =>
      cases hp1 : s.th1.phase with
      | trySecond =>
          rcases hq : lockOf s (!s.th1.first) with _ | j
          · exact ⟨_, Step.trySecondOk1 s hp1 hq⟩
          · exact ⟨_, Step.trySecondFail1 s j hp1 hq⟩
      | cs => exact ⟨_, Step.exitCS1 s hp1⟩
      | waitFirst =>
          have hfree : lockOf s s.th0.first = none :=
            lock_free_of_neither _ (w0 hp0 _) (w1 hp1 _)
          exact ⟨_, Step.acquireFirst0 s hp0 hfree⟩
      | done =>
          have hfree : lockOf s s.th0.first = none :=
            lock_free_of_neither _ (w0 hp0 _) (d1 hp1 _)
          exact ⟨_, Step.acquireFirst0 s hp0 hfree⟩
  | done =>
      cases hp1 : s.th1.phase with
      | trySecond =>
          rcases hq : lockOf s (!s.th1.first) with _ | j
          · exact ⟨_, Step.trySecondOk1 s hp1 hq⟩
          · exact ⟨_, Step.trySecondFail1 s j hp1 hq⟩
      | cs => exact ⟨_, Step.exitCS1 s hp1⟩
      | waitFirst =>
          have hfree : lockOf s s.th1.first = none :=
            lock_free_of_neither _ (d0 hp0 _) (w1 hp1 _)
          exact ⟨_, Step.acquireFirst1 s hp1 hfree⟩
      | done => exact absurd ⟨hp0, hp1⟩ hnd

/-- Thread 0, running alone while thread 1 holds no lock, completes its
acquisition protocol: a finite run ends with thread 0 done, thread 1
untouched, and no lock held by thread 1. -/
theorem drive0 {s : MState} (hInv : Inv s)
    (hfree : ∀ l, lockOf s l ≠ some true) :
    ∃ s', Relation.ReflTransGen Step s s' ∧
      s'.th0.phase = MPhase.done ∧ s'.th1 = s.th1 ∧
      (∀ l, lockOf s' l ≠ some true) := by
  obtain ⟨⟨w0, t0, c0, d0⟩, _⟩ := hInv
  cases hp0 : s.th0.phase with
  | done => exact ⟨s, Relation.ReflTransGen.refl, hp0, rfl, hfree⟩
  | cs =>
      refine ⟨_, Relation.ReflTransGen.single (Step.exitCS0 s hp0), rfl, rfl, ?_⟩
      intro l
      cases l <;> simp [lockOf]
  | trySecond =>
      obtain ⟨ha, hb⟩ := t0 hp0
      have h2 : lockOf s (!s.th0.first) = none :=
        lock_free_of_neither _ hb (hfree _)
      refine ⟨_, Relation.ReflTransGen.head (Step.trySecondOk0 s hp0 h2)
        (Relation.ReflTransGen.single (Step.exitCS0 _ rfl)), rfl, ?_, ?_⟩
      · exact th1_setLockOf s (!s.th0.first) (some false)
      · intro l
        cases l <;> simp [lockOf]
  | waitFirst =>
      have hw := w0 hp0
      have h1 : lockOf s s.th0.first = none :=
        lock_free_of_neither _ (hw _) (hfree _)
      have h2 : lockOf s (!s.th0.first) = none :=
        lock_free_of_neither _ (hw _) (hfree _)
      have h2' : lockOf { setLockOf s s.th0.first (some false) with
          th0 := { s.th0 with phase := MPhase.trySecond } } (!s.th0.first) = none := by
        rw [lockOf_upd_th0, lockOf_setLockOf, if_neg (bool_ne_not _)]
        exact h2
      refine ⟨_, Relation.ReflTransGen.head (Step.acquireFirst0 s hp0 h1)
        (Relation.ReflTransGen.head (Step.trySecondOk0 _ rfl h2')
          (Relation.ReflTransGen.single (Step.exitCS0 _ rfl))), rfl, ?_, ?_⟩
      · exact (th1_setLockOf _ (!s.th0.first) (some false)).trans
          (th1_setLockOf s s.th0.first (some false))
      · intro l
        cases l <;> simp [lockOf]

/-- Thread 1, running alone while thread 0 holds no lock, completes its
acquisition protocol: a finite run ends with thread 1 done, thread 0
untouched, and no lock held by thread 0. -/
theorem drive1 {s : MState} (hInv : Inv s)
    (hfree : ∀ l, lockOf s l ≠ some false) :
    ∃ s', Relation.ReflTransGen Step s s' ∧
      s'.th1.phase = MPhase.done ∧ s'.th0 = s.th0 ∧
      (∀ l, lockOf s' l ≠ some false) := by
  obtain ⟨_, ⟨w1, t1, c1, d1⟩⟩ := hInv
  cases hp1 : s.th1.phase with
  | done => exact ⟨s, Relation.ReflTransGen.refl, hp1, rfl, hfree⟩
  | cs =>
      refine ⟨_, Relation.ReflTransGen.single (Step.exitCS1 s hp1), rfl, rfl, ?_⟩
      intro l
      cases l <;> simp [lockOf]
  | trySecond =>
      obtain ⟨ha, hb⟩ := t1 hp1
      have h2 : lockOf s (!s.th1.first) = none :=
        lock_free_of_neither _ (hfree _) hb
      refine ⟨_, Relation.ReflTransGen.head (Step.trySecondOk1 s hp1 h2)
        (Relation.ReflTransGen.single (Step.exitCS1 _ rfl)), rfl, ?_, ?_⟩
      · exact th0_setLockOf s (!s.th1.first) (some true)
      · intro l
        cases l <;> simp [lockOf]
  | waitFirst =>
      have hw := w1 hp1
      have h1 : lockOf s s.th1.first = none :=
        lock_free_of_neither _ (hfree _) (hw _)
      have h2 : lockOf s (!s.th1.first) = none :=
        lock_free_of_neither _ (hfree _) (hw _)
      have h2' : lockOf { setLockOf s s.th1.first (some true) with
          th1 := { s.th1 with phase := MPhase.trySecond } } (!s.th1.first) = none := by
        rw [lockOf_upd_th1, lockOf_setLockOf, if_neg (bool_ne_not _)]
        exact h2
      refine ⟨_, Relation.ReflTransGen.head (Step.acquireFirst1 s hp1 h1)
        (Relation.ReflTransGen.head (Step.trySecondOk1 _ rfl h2')
          (Relation.ReflTransGen.single (Step.exitCS1 _ rfl))), rfl, ?_, ?_⟩
      · exact (th0_setLockOf _ (!s.th1.first) (some true)).trans
          (th0_setLockOf s s.th1.first (some true))
      · intro l
        cases l <;> simp [lockOf]

/-- From every state satisfying the invariant, a finite continuation
exists after which both threads have completed. -/
theorem complete_from {s : MState} (hInv : Inv s) :
    ∃ s', Relation.ReflTransGen Step s s' ∧ BothDone s' := by
  cases hp1 : s.th1.phase with
  | waitFirst =>
      have hfree := hInv.2.1 hp1
      obtain ⟨s1, hr1, hd0, hth1, _⟩ := drive0 hInv hfree
      have hInv1 : Inv s1 := inv_rtg hr1 hInv
      have hfree0 := hInv1.1.2.2.2 hd0
      obtain ⟨s2, hr2, hd1, hth0, _⟩ := drive1 hInv1 hfree0
      exact ⟨s2, hr1.trans hr2, ⟨by rw [hth0]; exact hd0, hd1⟩⟩
  | done =>
      have hfree := hInv.2.2.2.2 hp1
      obtain ⟨s1, hr1, hd0, hth1, _⟩ := drive0 hInv hfree
      exact ⟨s1, hr1, ⟨hd0, by rw [hth1]; exact hp1⟩⟩
  | cs =>
      have hstep := Step.exitCS1 s hp1
      have hInv1 := mlStepInv hstep hInv
      have hfree := hInv1.2.2.2.2 rfl
      obtain ⟨s2, hr2, hd0, hth1, _⟩ := drive0 hInv1 hfree
      refine ⟨s2, Relation.ReflTransGen.head hstep hr2, ⟨hd0, ?_⟩⟩
      rw [hth1]
  | trySecond =>
      obtain ⟨ha1, hb1⟩ := hInv.2.2.1 hp1
      rcases hq : lockOf s (!s.th1.first) with _ | j
      · have hstep1 := Step.trySecondOk1 s hp1 hq
        have hInvA := mlStepInv hstep1 hInv
        have hstep2 := Step.exitCS1 _ (rfl :
          ({ setLockOf s (!s.th1.first) (some true) with
             th1 := { s.th1 with phase := MPhase.cs } } : MState).th1.phase = MPhase.cs)
        have hInvB := mlStepInv hstep2 hInvA
        have hfree := hInvB.2.2.2.2 rfl
        obtain ⟨s3, hr3, hd0, hth1, _⟩ := drive0 hInvB hfree
        refine ⟨s3, Relation.ReflTransGen.head hstep1
          (Relation.ReflTransGen.head hstep2 hr3), ⟨hd0, ?_⟩⟩
        rw [hth1]
      · cases j with
        | true => exact absurd hq hb1
        | false =>
          cases hp0 : s.th0.phase with
          | waitFirst => exact absurd hq (hInv.1.1 hp0 _)
          | done => exact absurd hq (hInv.1.2.2.2 hp0 _)
          | cs =>
              have hstep := Step.exitCS0 s hp0
              have hInv1 := mlStepInv hstep hInv
              have hfree0 := hInv1.1.2.2.2 rfl
              obtain ⟨s2, hr2, hd1, hth0, _⟩ := drive1 hInv1 hfree0
              refine ⟨s2, Relation.ReflTransGen.head hstep hr2, ⟨?_, hd1⟩⟩
              rw [hth0]
          | trySecond =>
              have hstep := Step.trySecondFail1 s false hp1 hq
              have hInv1 := mlStepInv hstep hInv
              have hfree := hInv1.2.1 rfl
              obtain ⟨s2, hr2, hd0, hth1b, _⟩ := drive0 hInv1 hfree
              have hInv2 : Inv s2 := inv_rtg hr2 hInv1
              have hfree0 := hInv2.1.2.2.2 hd0
              obtain ⟨s3, hr3, hd1, hth0, _⟩ := drive1 hInv2 hfree0
              refine ⟨s3, Relation.ReflTransGen.head hstep (hr2.trans hr3), ⟨?_, hd1⟩⟩
              rw [hth0]
              exact hd0

end MultiLock

/-- C2: for every pair of threads acquiring `Logger3`'s two mutexes
through the deadlock-avoiding multi-lock protocol, with arbitrary (in
particular opposite) per-call-site lock orders, every reachable state
satisfies: (1) if the two calls have not both completed, some protocol
action is enabled — the protocol never forms a cycle of blocked waiters;
(2) a thread blocked waiting holds none of the locks and a thread inside
its critical section holds all of them — the caller holds all listed
locks or none while blocked; and (3) a finite continuation exists after
which both threads have completed. -/
theorem MultiLock.lock_protocol_deadlock_free (f0 f1 : Bool)
    (s : MultiLock.MState) (h : MultiLock.Reachable f0 f1 s) :
    (¬ MultiLock.BothDone s → ∃ s', MultiLock.Step s s') ∧
    ((s.th0.phase = MultiLock.MPhase.waitFirst →
        ∀ l, MultiLock.lockOf s l ≠ some false) ∧
     (s.th0.phase = MultiLock.MPhase.cs →
        ∀ l, MultiLock.lockOf s l = some false) ∧
     (s.th1.phase = MultiLock.MPhase.waitFirst →
        ∀ l, MultiLock.lockOf s l ≠ some true) ∧
     (s.th1.phase = MultiLock.MPhase.cs →
        ∀ l, MultiLock.lockOf s l = some true)) ∧
    (∃ s', Relation.ReflTransGen MultiLock.Step s s' ∧ MultiLock.BothDone s') := by
  have hInv := MultiLock.mlReachInv h
  exact ⟨fun hnd => MultiLock.progress hInv hnd,
    ⟨hInv.1.1, hInv.1.2.2.1, hInv.2.1, hInv.2.2.2.1⟩,
    MultiLock.complete_from hInv⟩

/-- C2 witness: the initial state with thread 0 listing `mtx` first and
thread 1 listing `mtx2` first (opposite orders) is reachable, and all
three deadlock-freedom conclusions hold there. -/
theorem MultiLock.lock_protocol_witness :
    (¬ MultiLock.BothDone (MultiLock.init false true) →
      ∃ s', MultiLock.Step (MultiLock.init false true) s') ∧
    (((MultiLock.init false true).th0.phase = MultiLock.MPhase.waitFirst →
        ∀ l, MultiLock.lockOf (MultiLock.init false true) l ≠ some false) ∧
     ((MultiLock.init false true).th0.phase = MultiLock.MPhase.cs →
        ∀ l, MultiLock.lockOf (MultiLock.init false true) l = some false) ∧
     ((MultiLock.init false true).th1.phase = MultiLock.MPhase.waitFirst →
        ∀ l, MultiLock.lockOf (MultiLock.init false true) l ≠ some true) ∧
     ((MultiLock.init false true).th1.phase = MultiLock.MPhase.cs →
        ∀ l, MultiLock.lockOf (MultiLock.init false true) l = some true)) ∧
    (∃ s', Relation.ReflTransGen MultiLock.Step (MultiLock.init false true) s' ∧
      MultiLock.BothDone s') :=
  MultiLock.lock_protocol_deadlock_free false true (MultiLock.init false true)
    Relation.ReflTransGen.refl

namespace ReaderWriterLock

/-- Modelled from the spec: the state of the reader/writer lock of spec
section 4.4 / section 3.  The repository's reader/writer example
(src/unnamed/part_001, `read_correct` lines 119-129 and `write_correct`
lines 106-116) drives a `std::shared_mutex`, whose implementation and
waiting policy are standard-library code outside the repository; the
spec prescribes the writer-priority state machine `Idle | Shared(n>0) |
Exclusive(1)` with a `waitingWriters` counter.  `readers` is the number
of current shared holders (state `Shared` when positive), `writer` is
true exactly in state `Exclusive`, and `waitingWriters` counts writers
between announcing intent and being granted exclusive access. -/
structure RWState where
  readers : Nat
  writer : Bool
  waitingWriters : Nat
deriving DecidableEq

/-- Observable transitions of the reader/writer lock. -/
inductive RWLabel where
  | requestExclusive
  | grantShared
  | releaseShared
  | grantExclusive
  | releaseExclusive
deriving DecidableEq

/-- Modelled from the spec (section 4.4): `acquireShared()` blocks while
the state is `Exclusive` or `waitingWriters > 0`, so a shared grant fires
only when no writer holds or waits; `acquireExclusive()` first increments
`waitingWriters` (`requestExclusive`), then blocks while the state is not
`Idle`, and on the grant decrements `waitingWriters` and takes exclusive
hold; the release transitions undo one shared hold or the exclusive
hold. -/
inductive RWStep : RWState → RWLabel → RWState → Prop where
  | requestExclusive (s : RWState) :
      RWStep s RWLabel.requestExclusive
        { s with waitingWriters := s.waitingWriters + 1 }
  | grantShared (s : RWState) (hw : s.writer = false) (hww : s.waitingWriters = 0) :
      RWStep s RWLabel.grantShared { s with readers := s.readers + 1 }
  | releaseShared (s : RWState) (hr : 0 < s.readers) :
      RWStep s RWLabel.releaseShared { s with readers := s.readers - 1 }
  | grantExclusive (s : RWState) (hr : s.readers = 0) (hw : s.writer = false)
      (hww : 0 < s.waitingWriters) :
      RWStep s RWLabel.grantExclusive
        { readers := 0, writer := true, waitingWriters := s.waitingWriters - 1 }
  | releaseExclusive (s : RWState) (hw : s.writer = true) :
      RWStep s RWLabel.releaseExclusive { s with writer := false }

/-- Some labeled transition. -/
def StepAny (a b : RWState) : Prop :=
  ∃ l, RWStep a l b

/-- Initial state: created idle. -/
def init : RWState :=
  { readers := 0, writer := false, waitingWriters := 0 }

/-- Reachable states of the reader/writer lock. -/
def Reachable (s : RWState) : Prop :=
  Relation.ReflTransGen StepAny init s

/-- Inductive invariant: in state `Exclusive` there is no shared
holder. -/
def Inv (s : RWState) : Prop :=
  s.writer = true → s.readers = 0

theorem rwStepInv {s l s'} (hs : RWStep s l s') (hi : Inv s) :
    Inv s' := by
  cases hs with
  | requestExclusive => exact fun hw => hi hw
  | grantShared hw hww =>
      intro hw'
      simp [hw] at hw'
  | releaseShared hr =>
      intro hw
      have h0 := hi hw
      show s.readers - 1 = 0
      omega
  | grantExclusive hr hw hww => exact fun _ => rfl
  | releaseExclusive hw =>
      intro hw'
      exact Bool.noConfusion hw'

theorem rwReachInv {s : RWState} (h : Reachable s) : Inv s := by
  induction h with
  | refl => exact fun _ => rfl
  | tail _ hstep ih =>
      obtain ⟨l, hl⟩ := hstep
      exact rwStepInv hl ih

end ReaderWriterLock

/-- C3: writer priority of the reader/writer lock: in every execution, a
new shared (read) acquisition is granted only when the state is `Idle`
or `Shared` (no writer holding) and the count of waiting writers is
zero; whenever at least one writer is waiting, no `grantShared`
transition is possible at all, and no transition increases the reader
count — no new reader is ever granted ahead of a waiting writer. -/
theorem ReaderWriterLock.writer_priority (s : ReaderWriterLock.RWState)
    (h : ReaderWriterLock.Reachable s) :
    (∀ s', ReaderWriterLock.RWStep s ReaderWriterLock.RWLabel.grantShared s' →
      s.writer = false ∧ s.waitingWriters = 0 ∧ s'.readers = s.readers + 1) ∧
    (0 < s.waitingWriters →
      ∀ s', ¬ ReaderWriterLock.RWStep s ReaderWriterLock.RWLabel.grantShared s') ∧
    (0 < s.waitingWriters →
      ∀ l s', ReaderWriterLock.RWStep s l s' → s'.readers ≤ s.readers) := by
  refine ⟨?_, ?_, ?_⟩
  · intro s' hstep
    cases hstep with
    | grantShared hw hww => exact ⟨hw, hww, rfl⟩
  · intro hww s' hstep
    cases hstep with
    | grantShared hw hww' => omega
  · intro hww l s' hstep
    cases hstep with
    | requestExclusive => exact Nat.le_refl _
    | grantShared hw hww' => omega
    | releaseShared hr => exact Nat.sub_le _ _
    | grantExclusive hr hw hww' => exact Nat.zero_le _
    | releaseExclusive hw => exact Nat.le_refl _

/-- C3 witness: the idle initial state is reachable and the
writer-priority conclusions hold there. -/
theorem ReaderWriterLock.writer_priority_witness :
    (∀ s', ReaderWriterLock.RWStep ReaderWriterLock.init
        ReaderWriterLock.RWLabel.grantShared s' →
      ReaderWriterLock.init.writer = false ∧
      ReaderWriterLock.init.waitingWriters = 0 ∧
      s'.readers = ReaderWriterLock.init.readers + 1) ∧
    (0 < ReaderWriterLock.init.waitingWriters →
      ∀ s', ¬ ReaderWriterLock.RWStep ReaderWriterLock.init
        ReaderWriterLock.RWLabel.grantShared s') ∧
    (0 < ReaderWriterLock.init.waitingWriters →
      ∀ l s', ReaderWriterLock.RWStep ReaderWriterLock.init l s' →
        s'.readers ≤ ReaderWriterLock.init.readers) :=
  ReaderWriterLock.writer_priority ReaderWriterLock.init
    Relation.ReflTransGen.refl

/-- C8: mutual exclusion of the reader/writer lock: in every reachable
state, `Shared` and `Exclusive` are mutually exclusive (a holding writer
implies zero readers); an exclusive acquisition is granted only from
`Idle` (no readers, no holding writer); and while a writer holds the
exclusive lock neither a shared grant nor another exclusive grant is
possible. -/
theorem ReaderWriterLock.writer_exclusivity (s : ReaderWriterLock.RWState)
    (h : ReaderWriterLock.Reachable s) :
    (s.writer = true → s.readers = 0) ∧
    (∀ s', ReaderWriterLock.RWStep s ReaderWriterLock.RWLabel.grantExclusive s' →
      s.readers = 0 ∧ s.writer = false) ∧
    (s.writer = true →
      (∀ s', ¬ ReaderWriterLock.RWStep s ReaderWriterLock.RWLabel.grantShared s') ∧
      (∀ s', ¬ ReaderWriterLock.RWStep s
        ReaderWriterLock.RWLabel.grantExclusive s')) := by
  refine ⟨ReaderWriterLock.rwReachInv h, ?_, ?_⟩
  · intro s' hstep
    cases hstep with
    | grantExclusive hr hw hww => exact ⟨hr, hw⟩
  · intro hw
    constructor
    · intro s' hstep
      cases hstep with
      | grantShared hw' hww =>
          rw [hw'] at hw
          exact Bool.noConfusion hw
    · intro s' hstep
      cases hstep with
      | grantExclusive hr hw' hww =>
          rw [hw'] at hw
          exact Bool.noConfusion hw

/-- C8 witness: the idle initial state is reachable and the mutual
exclusion conclusions hold there. -/
theorem ReaderWriterLock.writer_exclusivity_witness :
    (ReaderWriterLock.init.writer = true → ReaderWriterLock.init.readers = 0) ∧
    (∀ s', ReaderWriterLock.RWStep ReaderWriterLock.init
        ReaderWriterLock.RWLabel.grantExclusive s' →
      ReaderWriterLock.init.readers = 0 ∧ ReaderWriterLock.init.writer = false) ∧
    (ReaderWriterLock.init.writer = true →
      (∀ s', ¬ ReaderWriterLock.RWStep ReaderWriterLock.init
        ReaderWriterLock.RWLabel.grantShared s') ∧
      (∀ s', ¬ ReaderWriterLock.RWStep ReaderWriterLock.init
        ReaderWriterLock.RWLabel.grantExclusive s')) :=
  ReaderWriterLock.writer_exclusivity ReaderWriterLock.init
    Relation.ReflTransGen.refl
